import Mathlib

set_option maxHeartbeats 1000000

deriving instance DecidableEq for Except

namespace ReolinkFW

/-! Shallow embedding of the reolink-fw firmware inspection tool.

Bytes are modelled as `List UInt8`.  Python byte strings become lists,
`int.from_bytes(b, "little")` becomes `u32le`, and regex searches become
bounded linear scans (`scanFirst`), which is exactly the semantics of
`re.search` for the fixed-shape byte patterns used by the source. -/

/-- Little-endian interpretation of a byte list, as Python's
`int.from_bytes(b, "little")` (any length, empty list gives 0). -/
def u32le (l : List UInt8) : Nat :=
  l.foldr (fun b acc => b.toNat + 256 * acc) 0

/-- Four little-endian bytes of a natural number (the shape of the u32 size
fields in the LZ4 legacy frame). -/
def u32leBytes (n : Nat) : List UInt8 :=
  [UInt8.ofNat n, UInt8.ofNat (n / 256), UInt8.ofNat (n / 256 ^ 2), UInt8.ofNat (n / 256 ^ 3)]

theorem u32leBytes_length (n : Nat) : (u32leBytes n).length = 4 := rfl

theorem u32le_u32leBytes (n : Nat) (h : n < 2 ^ 32) : u32le (u32leBytes n) = n := by
  have hofNat : ∀ m : Nat, (UInt8.ofNat m).toNat = m % 256 := fun m => rfl
  simp only [u32le, u32leBytes, List.foldr, hofNat]
  have h0 := Nat.div_add_mod n 256
  have h1 := Nat.div_add_mod (n / 256) 256
  have h2 := Nat.div_add_mod (n / 256 / 256) 256
  have h3 := Nat.div_add_mod (n / 256 / 256 / 256) 256
  have e1 : n / 256 / 256 = n / 256 ^ 2 := by
    rw [Nat.div_div_eq_div_mul]; norm_num
  have e2 : n / 256 / 256 / 256 = n / 256 ^ 3 := by
    rw [Nat.div_div_eq_div_mul, Nat.div_div_eq_div_mul]; norm_num
  have hlt : n / 256 / 256 / 256 < 256 := by
    rw [Nat.div_div_eq_div_mul, Nat.div_div_eq_div_mul]
    apply Nat.div_lt_of_lt_mul
    calc n < 2 ^ 32 := h
    _ ≤ 256 * 256 * 256 * 256 := by norm_num
  rw [← e1, ← e2]
  have hm3 : n / 256 / 256 / 256 % 256 = n / 256 / 256 / 256 := Nat.mod_eq_of_lt hlt
  omega

/-- Bounded leftmost scan: try `f` at positions `start, start+1, ...` for
`fuel` steps and return the first hit together with its position.  This is
the semantics of `re.search` / `bytes.find` over a fixed finite input. -/
def scanFirst (f : Nat → Option α) : Nat → Nat → Option (Nat × α)
  | _, 0 => none
  | i, fuel + 1 =>
    match f i with
    | some a => some (i, a)
    | none => scanFirst f (i + 1) fuel

theorem scanFirst_none (f : Nat → Option α) (start fuel : Nat)
    (h : ∀ j, start ≤ j → j < start + fuel → f j = none) :
    scanFirst f start fuel = none := by
  induction fuel generalizing start with
  | zero => rfl
  | succ n ih =>
    have hs : f start = none := h start (Nat.le_refl _) (by omega)
    simp only [scanFirst, hs]
    exact ih (start + 1) (fun j hj1 hj2 => h j (by omega) (by omega))

theorem scanFirst_some (f : Nat → Option α) (start fuel i : Nat) (a : α)
    (h1 : start ≤ i) (h2 : i < start + fuel) (h3 : f i = some a)
    (h4 : ∀ j, start ≤ j → j < i → f j = none) :
    scanFirst f start fuel = some (i, a) := by
  induction fuel generalizing start with
  | zero => omega
  | succ n ih =>
    by_cases hsi : start = i
    · subst hsi
      simp only [scanFirst, h3]
    · have hs : f start = none := h4 start (Nat.le_refl _) (by omega)
      simp only [scanFirst, hs]
      exact ih (start + 1) (by omega) (by omega) (fun j hj1 hj2 => h4 j (by omega) hj2)

/-! ## PAK sections and section-count inference (`mypakler.py`, `__init__.py`) -/

/-- One PAK section descriptor: the fields the firmware logic reads
(`Section.name`, `Section.len`, `Section.start` from `pakler`). -/
structure PakSection where
  name : String
  start : Nat
  len : Nat
deriving DecidableEq, Repr

def UBOOT_SECTIONS : List String := ["uboot", "uboot1", "BOOT"]

def KERNEL_SECTIONS : List String := ["kernel", "KERNEL"]

def ROOTFS_SECTIONS : List String := ["fs", "rootfs"]

def FS_SECTIONS : List String := ROOTFS_SECTIONS ++ ["app"]

/-- Embedding of `self._fs_sections = [s for s in self if s.name in FS_SECTIONS]`. -/
def fsSections (sections : List PakSection) : List PakSection :=
  sections.filter (fun s => decide (s.name ∈ FS_SECTIONS))

/-- Embedding of `app = self._fs_sections[-1]` in `get_info`: the section the
metadata bundle is read from.  Python's `[-1]` on an empty list raises, so the
result is optional. -/
def getInfoAppSection (sections : List PakSection) : Option PakSection :=
  (fsSections sections).getLast?

/-- Candidate section counts tried by `guess_section_count`:
`itertools.chain(range(8, 14), range(1, 8), range(14, 30))`. -/
def candidateCounts : List Nat :=
  List.range' 8 6 ++ List.range' 1 7 ++ List.range' 14 16

/-- Embedding of `guess_section_count`.  The external `read_header` /
`pakler.Header` parse is abstracted by the predicate `parseOk` (success of the
full header parse for a given count on a fixed byte string); the function
returns the first candidate count whose parse succeeds, else no guess. -/
def guess_section_count (parseOk : Nat → Bool) : Option Nat :=
  candidateCounts.find? parseOk

theorem find?_eq_some_first {α : Type} (p : α → Bool) (l : List α) (a : α)
    (h : ∃ l₁ l₂, l = l₁ ++ a :: l₂ ∧ p a = true ∧ ∀ b ∈ l₁, p b = false) :
    l.find? p = some a := by
  obtain ⟨l₁, l₂, rfl, hpa, hfst⟩ := h
  induction l₁ with
  | nil => simp [List.find?, hpa]
  | cons x xs ih =>
    have hx : p x = false := hfst x (List.mem_cons_self x xs)
    simp only [List.cons_append, List.find?, hx]
    exact ih (fun b hb => hfst b (List.mem_cons_of_mem x hb))

theorem find?_some_decomp {α : Type} (p : α → Bool) (l : List α) (a : α)
    (h : l.find? p = some a) :
    ∃ l₁ l₂, l = l₁ ++ a :: l₂ ∧ p a = true ∧ ∀ b ∈ l₁, p b = false := by
  induction l with
  | nil => simp [List.find?] at h
  | cons x xs ih =>
    cases hx : p x with
    | true =>
      rw [List.find?_cons_of_pos _ hx] at h
      injection h with h'
      subst h'
      exact ⟨[], xs, rfl, hx, by simp⟩
    | false =>
      rw [List.find?_cons_of_neg _ (by simp [hx])] at h
      obtain ⟨l₁, l₂, hdec, hpa, hfst⟩ := ih h
      refine ⟨x :: l₁, l₂, by simp [hdec], hpa, ?_⟩
      intro b hb
      rcases List.mem_cons.mp hb with rfl | hb'
      · exact hx
      · exact hfst b hb'

/-! ## Section windows (`util.py`, class `SectionFile`) -/

/-- State of an open `SectionFile`: the parent byte source, the window bounds
`[start, sEnd)` (with `sEnd = section.start + section.len`) and the absolute
cursor `position` into the parent source.  The claim quantifies over
read/peek/seek/tell sequences on an open handle, so the closed-handle guard
checks of the source are not reachable and are not modelled. -/
structure SectionFile where
  fileData : List UInt8
  start : Nat
  sEnd : Nat
  position : Nat
deriving DecidableEq, Repr

/-- Embedding of `SectionFile.__init__`. -/
def SectionFile.make (fileData : List UInt8) (s : PakSection) : SectionFile :=
  { fileData := fileData, start := s.start, sEnd := s.start + s.len, position := s.start }

/-- Window length, `section.len`. -/
def SectionFile.length (f : SectionFile) : Nat := f.sEnd - f.start

/-- Embedding of `SectionFile.tell`: cursor relative to the window start. -/
def SectionFile.tell (f : SectionFile) : Nat := f.position - f.start

/-- Embedding of `SectionFile.peek`.  The parent read `fd.seek(pos); fd.read(k)`
is `(fileData.drop pos).take k` (short reads near the parent EOF included). -/
def SectionFile.peek (f : SectionFile) (size : Int) : List UInt8 :=
  if f.sEnd ≤ f.position ∨ size = 0 then []
  else
    let maxRead : Nat := f.sEnd - f.position
    let k : Nat := if size < 0 ∨ (maxRead : Int) < size then maxRead else size.toNat
    (f.fileData.drop f.position).take k

/-- Embedding of `SectionFile.read`; `size = -1` stands for the `None` default
(both take the `size < 0` branch).  Returns the data and the updated handle;
the new cursor is `fd.tell()` after the parent read. -/
def SectionFile.read (f : SectionFile) (size : Int) : List UInt8 × SectionFile :=
  if f.sEnd ≤ f.position ∨ size = 0 then ([], f)
  else
    let maxRead : Nat := f.sEnd - f.position
    let k : Nat := if size < 0 ∨ (maxRead : Int) < size then maxRead else size.toNat
    let data := (f.fileData.drop f.position).take k
    (data, { f with position := f.position + data.length })

/-- Seek target `newpos` computed by `SectionFile.seek` for each `whence`. -/
def SectionFile.seekTarget (f : SectionFile) (offset : Int) (whence : Nat) : Int :=
  if whence = 0 then (f.start : Int) + offset
  else if whence = 1 then (f.position : Int) + offset
  else (f.sEnd : Int) + offset

/-- Embedding of `SectionFile.seek` (whence 0 = SEEK_SET, 1 = SEEK_CUR,
2 = SEEK_END; anything else raises).  A target before the window start raises
`ValueError("new position is negative")`; on success the new `tell()` is
returned with the updated handle. -/
def SectionFile.seek (f : SectionFile) (offset : Int) (whence : Nat) :
    Except String (Nat × SectionFile) :=
  if whence = 0 ∨ whence = 1 ∨ whence = 2 then
    if f.seekTarget offset whence < (f.start : Int) then
      .error "new position is negative"
    else
      .ok ((f.seekTarget offset whence).toNat - f.start,
        { f with position := (f.seekTarget offset whence).toNat })
  else .error "whence value unsupported"

/-- One step of the operation sequences the claim quantifies over. -/
inductive FileOp where
  | opRead (size : Int)
  | opPeek (size : Int)
  | opSeek (offset : Int) (whence : Nat)
  | opTell
deriving DecidableEq, Repr

/-- Apply one operation to the handle.  `peek` and `tell` leave the handle
unchanged; a failing `seek` raises in the source, leaving the handle as it
was. -/
def SectionFile.applyOp (f : SectionFile) : FileOp → SectionFile
  | .opRead size => (f.read size).2
  | .opPeek _ => f
  | .opSeek offset whence =>
    match f.seek offset whence with
    | .ok (_, f') => f'
    | .error _ => f
  | .opTell => f

/-- Run a sequence of operations. -/
def SectionFile.runOps (f : SectionFile) (ops : List FileOp) : SectionFile :=
  ops.foldl SectionFile.applyOp f

/-! ## Logical section lookup (`__init__.py`) -/

/-- Embedding of `_get_uboot_section_name` / `_get_kernel_section_name` (both
scan for the first section with nonzero length whose name is in the given
set and raise when none exists). -/
def getSectionNameFrom (names : List String) (sections : List PakSection) :
    Except String String :=
  match sections.find? (fun s => decide (s.len ≠ 0) && decide (s.name ∈ names)) with
  | some s => .ok s.name
  | none => .error "section not found"

/-- Embedding of `self._sdict = {s.name: s for s in self}` followed by a key
lookup: a Python dict comprehension keeps the last binding for a repeated
key, so the lookup returns the last section bearing the name. -/
def sdictGet (sections : List PakSection) (name : String) : Option PakSection :=
  sections.reverse.find? (fun s => decide (s.name = name))

/-- Embedding of `__getitem__` on the logical keys `"uboot"` / `"kernel"`:
resolve the stored section name (computed in `__init__`, which raises when
missing), then look the name up in `_sdict`. -/
def getItemLogical (names : List String) (sections : List PakSection) :
    Except String PakSection :=
  match getSectionNameFrom names sections with
  | .error e => .error e
  | .ok nm =>
    match sdictGet sections nm with
    | some s => .ok s
    | none => .error "KeyError"

/-! ## Legacy image header OS/architecture decoding (`uboot.py`, `__init__.py`) -/

/-- Embedding of the `Arch` IntEnum (`ARM = 2`, `MIPS = 5`, `ARM64 = 22`). -/
inductive Arch where
  | ARM
  | MIPS
  | ARM64
deriving DecidableEq, Repr

/-- Embedding of the `LegacyImageHeader.arch` property, `Arch(self._arch)`:
constructing an IntEnum from a value outside the members raises
`ValueError`. -/
def Arch.ofByte (b : Nat) : Except String Arch :=
  if b = 2 then .ok .ARM
  else if b = 5 then .ok .MIPS
  else if b = 22 then .ok .ARM64
  else .error "ValueError: not a valid Arch"

/-- Embedding of `get_arch_name`.  The final `raise` branch is unreachable
because `Arch` has exactly the three members, but it is kept faithfully. -/
def get_arch_name (a : Arch) : Except String String :=
  if a = .ARM then .ok "ARM"
  else if a = .MIPS then .ok "MIPS"
  else if a = .ARM64 then .ok "AArch64"
  else .error "Unknown architecture"

/-- Embedding of `get_kernel_image_header_info` applied to a present header,
parameterised by the header's OS and architecture bytes: the OS string is
`"Linux"` iff the OS byte is 5, and the architecture name comes from
`get_arch_name(hdr.arch)` (which can raise). -/
def get_kernel_image_header_info (osByte archByte : Nat) :
    Except String (String × String) := do
  let a ← Arch.ofByte archByte
  let an ← get_arch_name a
  pure (if osByte = 5 then "Linux" else "Unknown", an)

/-! ## Kernel decompression dispatch (`__init__.py`, `_decompress_kernel`) -/

/-- Big-endian interpretation of a byte list (ctypes `BigEndianStructure`
u32 fields). -/
def be32 (l : List UInt8) : Nat :=
  l.foldl (fun acc b => acc * 256 + b.toNat) 0

/-- Byte of `d` at index `i`, when present. -/
def byteAt (d : List UInt8) (i : Nat) : Option UInt8 :=
  (d.drop i).head?

/-- Size of `LegacyImageHeader` (`sizeof` of the ctypes struct): 7 u32
fields, 4 u8 fields, a 32-byte name. -/
def uimageHdrSize : Nat := 64

def XZ_MAGIC : List UInt8 := [0xFD, 0x37, 0x7A, 0x58, 0x5A, 0x00, 0x00]

def LZ4_MAGIC : List UInt8 := [0x02, 0x21, 0x4C, 0x18]

def GZIP_MAGIC : List UInt8 := [0x1F, 0x8B, 0x08, 0x00, 0x00, 0x00, 0x00, 0x00, 0x02, 0x03]

def UIMAGE_MAGIC : List UInt8 := [0x27, 0x05, 0x19, 0x56]

/-- Lexical match of the regex branch `.{5}\xff{8}` at position `i`: five
bytes (each not `\n`, as the pattern is compiled without DOTALL) followed by
eight `0xFF` bytes. -/
def lzmaMagicAt (d : List UInt8) (i : Nat) : Bool :=
  decide (((d.drop i).take 5).length = 5) &&
  ((d.drop i).take 5).all (fun b => b != 0x0A) &&
  (List.replicate 8 (0xFF : UInt8)).isPrefixOf (d.drop (i + 5))

/-- Match of `RE_LZMA_OR_XZ` anchored at position `i`
(`.{5}\xff{8}|\xFD\x37\x7A\x58\x5A\x00\x00`). -/
def lzmaOrXzAt (d : List UInt8) (i : Nat) : Bool :=
  lzmaMagicAt d i || XZ_MAGIC.isPrefixOf (d.drop i)

/-- Named groups of `RE_KERNEL_COMP`, in alternation order. -/
inductive CompGroup where
  | lz4
  | xz
  | lzma
  | gz
deriving DecidableEq, Repr

/-- Match of `RE_KERNEL_COMP` anchored at position `i`, returning the group
that matches there (Python alternation tries the branches left to right).
The `xz` branch is `\xFD\x37\x7A\x58\x5A\x00\x00.(?!XZ)`: seven magic bytes,
one further byte that is not `\n`, and a negative lookahead for `XZ`. -/
def kernelCompAt (d : List UInt8) (i : Nat) : Option CompGroup :=
  if LZ4_MAGIC.isPrefixOf (d.drop i) then some .lz4
  else if XZ_MAGIC.isPrefixOf (d.drop i) &&
      (match byteAt d (i + 7) with | some b => b != 0x0A | none => false) &&
      !([0x58, 0x5A] : List UInt8).isPrefixOf (d.drop (i + 8)) then some .xz
  else if lzmaMagicAt d i then some .lzma
  else if GZIP_MAGIC.isPrefixOf (d.drop i) then some .gz
  else none

/-- Byte literal `b" -- System halted"`. -/
def systemHalted : List UInt8 :=
  [0x20, 0x2D, 0x2D, 0x20, 0x53, 0x79, 0x73, 0x74, 0x65, 0x6D,
   0x20, 0x68, 0x61, 0x6C, 0x74, 0x65, 0x64]

/-- Embedding of `data.find(b" -- System halted")` (leftmost occurrence). -/
def findSystemHalted (d : List UInt8) : Option Nat :=
  (scanFirst (fun i => if systemHalted.isPrefixOf (d.drop i) then some () else none)
    0 (d.length + 1)).map (·.1)

/-- Embedding of `RE_KERNEL_COMP.search(data, halt)`: leftmost match at a
position `≥ halt`, with the matching group. -/
def kernelCompSearch (d : List UInt8) (halt : Nat) : Option (Nat × CompGroup) :=
  scanFirst (fun i => kernelCompAt d i) halt (d.length + 1 - halt)

/-- Decompression action selected by `_decompress_kernel`: the external
decompressors (lzma, zlib, lz4) are applied to the listed byte slice. -/
inductive KernelPlan where
  | singleStream (tail : List UInt8)
  | lz4Frame (tail : List UInt8)
  | xzLzmaStream (tail : List UInt8)
  | gzipStream (tail : List UInt8)
deriving DecidableEq, Repr

/-- Embedding of `_decompress_kernel`: skip the 64-byte legacy image header;
single LZMA/XZ stream when its magic is anchored right after the header;
otherwise anchor on `" -- System halted"` and search forward for the first
of the four compression magics. -/
def _decompress_kernel (data : List UInt8) : Except String KernelPlan :=
  if lzmaOrXzAt data uimageHdrSize then .ok (.singleStream (data.drop uimageHdrSize))
  else
    match findSystemHalted data with
    | none => .error "'System halted' string not found"
    | some halt =>
      match kernelCompSearch data halt with
      | none => .error "No known compression found in kernel"
      | some (p, .lz4) => .ok (.lz4Frame (data.drop p))
      | some (p, .xz) => .ok (.xzLzmaStream (data.drop p))
      | some (p, .lzma) => .ok (.xzLzmaStream (data.drop p))
      | some (p, .gz) => .ok (.gzipStream (data.drop p))

/-! ## FDT discovery (`fdt.py`, `__init__.py`, `_get_fdt`) -/

/-- Match of `RE_FDT_HEADER` at position `i`: magic `D0 0D FE ED`, 16
arbitrary bytes, version field `00 00 00 11`, last-compatible field
`00 00 00 10`, then 12 arbitrary bytes (DOTALL), 40 bytes in all. -/
def fdtHeaderAt (d : List UInt8) (i : Nat) : Bool :=
  ([0xD0, 0x0D, 0xFE, 0xED] : List UInt8).isPrefixOf (d.drop i) &&
  ([0x00, 0x00, 0x00, 0x11] : List UInt8).isPrefixOf (d.drop (i + 20)) &&
  ([0x00, 0x00, 0x00, 0x10] : List UInt8).isPrefixOf (d.drop (i + 24)) &&
  decide (i + 40 ≤ d.length)

/-- Embedding of `RE_FDT_HEADER.search(data)` (position of the leftmost
header match). -/
def fdtSearch (d : List UInt8) : Option Nat :=
  (scanFirst (fun i => if fdtHeaderAt d i then some () else none) 0 (d.length + 1)).map (·.1)

/-- Data source in which `_get_fdt` found the header. -/
inductive FdtSource where
  | fdtSection
  | kernelSection
  | kernelDecompressed
deriving DecidableEq, Repr

/-- Embedding of `_get_fdt` up to the external `pyfdt` blob parse: which data
is searched and at which offset the returned FDT starts.  `hasFdtSection`
is `"fdt" in self._sdict`. -/
def get_fdt_loc (hasFdtSection : Bool) (fdtData kernelSec kernelDec : List UInt8) :
    Option (FdtSource × Nat) :=
  if hasFdtSection then (fdtSearch fdtData).map (fun i => (.fdtSection, i))
  else
    match fdtSearch kernelSec with
    | some i => some (.kernelSection, i)
    | none =>
      match fdtSearch kernelDec with
      | some i => some (.kernelDecompressed, i)
      | none => none

/-- Blob handed to the external `FdtBlobParse`: `data[start:start+totalsize]`
with `totalsize` the big-endian u32 at offset `start + 4`. -/
def fdtBlob (d : List UInt8) (start : Nat) : List UInt8 :=
  (d.drop start).take (be32 ((d.drop (start + 4)).take 4))

/-! ## LZ4 legacy frame (`util.py`, `lz4_legacy_decompress`) -/

/-- Embedding of the read loop of `lz4_legacy_decompress`.  `B` is the
external `lz4.block.decompress`; the stream read `f.read(k)` is take/drop on
the remaining bytes `s` (with short reads at EOF, and
`int.from_bytes(b"", "little") = 0`).  The loop stops when the next size
field equals the length decompressed so far; the external block decompressor
raises on an empty input, which is the only way the loop can otherwise run
out of stream. -/
def lz4LegacyLoop (B : List UInt8 → List UInt8) (s res : List UInt8) :
    Except String (List UInt8) :=
  if u32le (s.take 4) = res.length then .ok res
  else if _h : s.length = 0 then .error "lz4 block decompress failed"
  else lz4LegacyLoop B ((s.drop 4).drop (u32le (s.take 4)))
    (res ++ B ((s.drop 4).take (u32le (s.take 4))))
termination_by s.length
decreasing_by simp only [List.length_drop]; omega

/-- Embedding of `lz4_legacy_decompress`: check the legacy frame magic, then
run the block loop on the rest of the stream. -/
def lz4_legacy_decompress (B : List UInt8 → List UInt8) (s : List UInt8) :
    Except String (List UInt8) :=
  if s.take 4 = LZ4_MAGIC then lz4LegacyLoop B (s.drop 4) []
  else .error "LZ4 legacy frame magic not found"

/-- Concatenated `{u32 block_size, block_size bytes}` records for a list of
compressed blocks (the frame body preceding the terminator field). -/
def lz4Records (cblocks : List (List UInt8)) : List UInt8 :=
  (cblocks.map (fun c => u32leBytes c.length ++ c)).flatten

/-! ## U-Boot decompression (`__init__.py`, `_decompress_uboot`) -/

def BCL_MAGIC_BYTES : List UInt8 := [0x42, 0x43, 0x4C, 0x31]

/-- Header fields of the external `pybcl.HeaderVariant` that the source
reads. -/
structure BclHeader where
  algo : Nat
  size : Nat
  outsize : Nat
deriving DecidableEq, Repr

/-- Modelled from the spec: the layout of the external `pybcl.HeaderVariant`
(not part of this repository) is `(magic, algo, compressed_size, outsize)`,
big-endian, 16 bytes in all (`sizeof(hdr)`). -/
def bclHeaderSize : Nat := 16

/-- Modelled from the spec: parse of the external `pybcl.HeaderVariant`
(`from_buffer_copy`), field order `(magic, algo, compressed_size, outsize)`. -/
def parseBclHeader (d : List UInt8) : BclHeader :=
  { algo := be32 ((d.drop 4).take 4),
    size := be32 ((d.drop 8).take 4),
    outsize := be32 ((d.drop 12).take 4) }

/-- Match of `RE_MSTAR` at position `i`: uImage magic, 24 arbitrary bytes,
OS byte `0x11`, one arbitrary byte, type byte `0x02`, then 33 arbitrary
bytes (DOTALL), 64 bytes in all. -/
def mstarAt (d : List UInt8) (i : Nat) : Bool :=
  UIMAGE_MAGIC.isPrefixOf (d.drop i) &&
  (byteAt d (i + 28) == some 0x11) &&
  (byteAt d (i + 30) == some 0x02) &&
  decide (i + 64 ≤ d.length)

/-- Embedding of `RE_MSTAR.search(uboot)`. -/
def mstarSearch (d : List UInt8) : Option Nat :=
  (scanFirst (fun i => if mstarAt d i then some () else none) 0 (d.length + 1)).map (·.1)

/-- Modelled from the spec: `Compression` is imported from `reolinkfw.uboot`
but its definition is missing from the source tree; the uImage compression
code for LZMA is the standard 3. -/
def compressionLZMA : UInt8 := 3

/-- Embedding of `_decompress_uboot`.  `D` is the external `pybcl.decompress`
(arguments: algorithm, expected output size, payload); `L` is the external
`lzma.decompress`.  In the BCL branch exactly `hdr.size` payload bytes after
the 16-byte header are passed to `D`. -/
def _decompress_uboot (D : Nat → Nat → List UInt8 → List UInt8)
    (L : List UInt8 → List UInt8) (uboot : List UInt8) : Except String (List UInt8) :=
  if BCL_MAGIC_BYTES.isPrefixOf uboot then
    let hdr := parseBclHeader uboot
    .ok (D hdr.algo hdr.outsize ((uboot.drop bclHeaderSize).take hdr.size))
  else
    match mstarSearch uboot with
    | some p =>
      let sz := be32 ((uboot.drop (p + 12)).take 4)
      if byteAt uboot (p + 31) = some compressionLZMA then
        .ok (L ((uboot.drop (p + 64)).take sz))
      else .error "Unexpected compression"
    | none => .ok uboot

/-! ## UBIFS path selection (`ubifs.py`, `Directory.select`) -/

/-- File tree of a UBIFS image: directories carry their children keyed by
name (the Python dict built from the directory entries; names are unique
within a directory). -/
inductive FsNode where
  | file
  | dir (children : List (String × FsNode))

/-- Walk an address (a component path from the root) down the tree. -/
def FsNode.resolve : FsNode → List String → Option FsNode
  | n, [] => some n
  | .dir ch, c :: cs =>
    match ch.lookup c with
    | some f => f.resolve cs
    | none => none
  | .file, _ :: _ => none

/-- Embedding of `Directory.select`.  A directory is identified by its
address from the root (`[]` is the root, whose `parent` is `None`); a
`PurePosixPath` argument is its root flag `ab` plus its `parts` `cs`
(pure-path normalisation removes `.` components but keeps `..`).
Mirrors the source order: the literal `".."` case first (root returns
itself, a non-root returns its parent — both are `addr.dropLast`); an
absolute path re-roots at `[]` (the non-root case delegates to
`self._image.root.select`, the root case strips the leading `/`, and both
continue with a child walk that does not re-check `".."`); the empty
relative path (`str(path) == "."`) returns the current directory; otherwise
the first component is looked up among the children and the remainder is
selected recursively, a non-directory child with a non-empty remainder
giving `None`. -/
def dirSelect (img : FsNode) (addr : List String) (ab : Bool) (cs : List String) :
    Option (List String) :=
  if ab = false ∧ cs = [".."] then some addr.dropLast
  else
    let addr' := if ab then [] else addr
    match cs with
    | [] => some addr'
    | c :: ds =>
      match img.resolve addr' with
      | some (.dir ch) =>
        match ch.lookup c with
        | some f =>
          if ds ≠ [] then
            match f with
            | .dir _ => dirSelect img (addr' ++ [c]) false ds
            | .file => none
          else some (addr' ++ [c])
        | none => none
      | _ => none

/-! ## Theorems for the claims -/

/-- C3: section-count inference tries the candidate counts in the exact
order given by `range(8, 14)`, `range(1, 8)`, `range(14, 30)` — that is
8..13, then 1..7, then 14..29 — and returns the first count whose full
header parse succeeds, `none` when every candidate fails; the result is a
pure function of the parse outcomes, hence deterministic for a fixed byte
string and stable across reopens. -/
theorem C3_section_count_inference (parseOk : Nat → Bool) :
    candidateCounts =
      [8, 9, 10, 11, 12, 13, 1, 2, 3, 4, 5, 6, 7,
       14, 15, 16, 17, 18, 19, 20, 21, 22, 23, 24, 25, 26, 27, 28, 29] ∧
    ((∀ i ∈ candidateCounts, parseOk i = false) → guess_section_count parseOk = none) ∧
    (∀ i, parseOk i = true →
      (∃ l₁ l₂, candidateCounts = l₁ ++ i :: l₂ ∧ ∀ j ∈ l₁, parseOk j = false) →
      guess_section_count parseOk = some i) ∧
    (∀ i, guess_section_count parseOk = some i →
      parseOk i = true ∧
      ∃ l₁ l₂, candidateCounts = l₁ ++ i :: l₂ ∧ ∀ j ∈ l₁, parseOk j = false) ∧
    (∀ q : Nat → Bool, (∀ i, parseOk i = q i) →
      guess_section_count parseOk = guess_section_count q) := by
  refine ⟨by decide, ?_, ?_, ?_, ?_⟩
  · intro hall
    exact List.find?_eq_none.mpr (fun i hi => by simp [hall i hi])
  · intro i hp ⟨l₁, l₂, hdec, hfst⟩
    exact find?_eq_some_first parseOk candidateCounts i ⟨l₁, l₂, hdec, hp, hfst⟩
  · intro i hfind
    obtain ⟨l₁, l₂, hdec, hp, hfst⟩ := find?_some_decomp parseOk candidateCounts i hfind
    exact ⟨hp, l₁, l₂, hdec, hfst⟩
  · intro q hpq
    have : parseOk = q := funext hpq
    rw [guess_section_count, guess_section_count, this]

theorem C3_section_count_inference_witness :
    guess_section_count (fun i => i == 10) = some 10 :=
  (C3_section_count_inference (fun i => i == 10)).2.2.1 10 (by decide)
    ⟨[8, 9], [11, 12, 13, 1, 2, 3, 4, 5, 6, 7,
      14, 15, 16, 17, 18, 19, 20, 21, 22, 23, 24, 25, 26, 27, 28, 29],
      by decide, by decide⟩

/-- C1 as stated is false: with a PAK that lists the `app` section before an
`fs` section, `get_info` reads the metadata from the *last* FS-named section
(`fs` here), so the `app` section does not always win when present. -/
theorem C1_counterexample :
    (⟨"app", 0, 1⟩ : PakSection).name = "app" ∧
    getInfoAppSection [⟨"app", 0, 1⟩, ⟨"fs", 1, 1⟩] = some ⟨"fs", 1, 1⟩ ∧
    (⟨"fs", 1, 1⟩ : PakSection).name ≠ "app" := by
  decide

/-- C1 amended: for every firmware whose PAK lists at least one section named
in {fs, rootfs, app}, the metadata bundle produced by `get_info` is read from
the last section with such a name in the order the PAK lists them; in
particular the `app` section wins whenever it is listed after every other
FS-named section (as in real firmwares), and a single fs/rootfs section with
nothing after it serves as both rootfs and application FS. -/
theorem C1_app_section_is_last_fs (sections l₁ l₂ : List PakSection) (s : PakSection)
    (hdec : sections = l₁ ++ s :: l₂) (hs : s.name ∈ FS_SECTIONS)
    (hafter : ∀ t ∈ l₂, t.name ∉ FS_SECTIONS) :
    getInfoAppSection sections = some s := by
  subst hdec
  unfold getInfoAppSection fsSections
  rw [List.filter_append, List.filter_cons_of_pos (by simpa using hs)]
  have h2 : l₂.filter (fun t => decide (t.name ∈ FS_SECTIONS)) = [] := by
    rw [List.filter_eq_nil_iff]
    intro t ht
    simpa using hafter t ht
  rw [h2]
  exact List.getLast?_concat _

theorem C1_app_section_is_last_fs_witness :
    getInfoAppSection [⟨"rootfs", 0, 4⟩, ⟨"app", 4, 4⟩] = some ⟨"app", 4, 4⟩ :=
  C1_app_section_is_last_fs _ [⟨"rootfs", 0, 4⟩] [] ⟨"app", 4, 4⟩ rfl (by decide) (by decide)

/-- C9 as stated is false: an architecture byte outside {2, 5, 22} is a
failure, not an unknown result — `Arch(self._arch)` raises `ValueError`, so
`get_kernel_image_header_info` raises instead of reporting an unknown
architecture (byte 3 here, with OS byte 5). -/
theorem C9_counterexample :
    get_kernel_image_header_info 5 3 = .error "ValueError: not a valid Arch" := by
  decide

/-- C9 amended: decoding the architecture byte maps 2 to ARM, 5 to MIPS and
22 to AArch64, and any other value raises an error (the `Arch` IntEnum
construction fails with `ValueError`); decoding the OS byte maps 5 to
"Linux" and every other value to "Unknown". -/
theorem C9_header_byte_decoding (osByte archByte : Nat) :
    (archByte = 2 → get_kernel_image_header_info osByte archByte =
      .ok (if osByte = 5 then "Linux" else "Unknown", "ARM")) ∧
    (archByte = 5 → get_kernel_image_header_info osByte archByte =
      .ok (if osByte = 5 then "Linux" else "Unknown", "MIPS")) ∧
    (archByte = 22 → get_kernel_image_header_info osByte archByte =
      .ok (if osByte = 5 then "Linux" else "Unknown", "AArch64")) ∧
    (archByte ≠ 2 → archByte ≠ 5 → archByte ≠ 22 →
      get_kernel_image_header_info osByte archByte =
        .error "ValueError: not a valid Arch") := by
  refine ⟨?_, ?_, ?_, ?_⟩ <;> intro h
  · subst h; rfl
  · subst h; rfl
  · subst h; rfl
  · intro h5 h22
    simp [get_kernel_image_header_info, Arch.ofByte, h, h5, h22, Bind.bind, Except.bind]

theorem C9_header_byte_decoding_witness :
    get_kernel_image_header_info 7 2 = .ok ("Unknown", "ARM") := by
  have := (C9_header_byte_decoding 7 2).1 rfl
  simpa using this

/-- C5 as stated is false: when two sections share the name of the first
nonzero-length U-Boot-named section, `__getitem__("uboot")` resolves the
stored *name* through `_sdict`, which keeps the last section for a repeated
name, so a zero-length section can be returned. -/
theorem C5_counterexample :
    getItemLogical UBOOT_SECTIONS [⟨"uboot", 0, 5⟩, ⟨"uboot", 5, 0⟩] =
      .ok ⟨"uboot", 5, 0⟩ ∧
    (⟨"uboot", 5, 0⟩ : PakSection).len = 0 := by
  decide

theorem sdictGet_of_nodup (sections : List PakSection) (s : PakSection)
    (hnodup : (sections.map PakSection.name).Nodup) (hmem : s ∈ sections) :
    sdictGet sections s.name = some s := by
  unfold sdictGet
  have hmem' : s ∈ sections.reverse := List.mem_reverse.mpr hmem
  have hsome : (sections.reverse.find? (fun t => decide (t.name = s.name))).isSome := by
    rw [List.find?_isSome]
    exact ⟨s, hmem', by simp⟩
  obtain ⟨t, ht⟩ := Option.isSome_iff_exists.mp hsome
  have htp := List.find?_some ht
  have htmem : t ∈ sections := List.mem_reverse.mp (List.mem_of_find?_eq_some ht)
  have hname : t.name = s.name := by simpa using htp
  have : t = s := List.inj_on_of_nodup_map hnodup htmem hmem hname
  rw [ht, this]

theorem getItemLogical_spec (names : List String) (sections : List PakSection)
    (hnodup : (sections.map PakSection.name).Nodup) :
    (∀ s, getItemLogical names sections = .ok s →
      s ∈ sections ∧ s.len ≠ 0 ∧ s.name ∈ names ∧
      ∃ l₁ l₂, sections = l₁ ++ s :: l₂ ∧
        ∀ t ∈ l₁, ¬(t.len ≠ 0 ∧ t.name ∈ names)) ∧
    (∀ l₁ l₂ s, sections = l₁ ++ s :: l₂ → s.len ≠ 0 → s.name ∈ names →
      (∀ t ∈ l₁, ¬(t.len ≠ 0 ∧ t.name ∈ names)) →
      getItemLogical names sections = .ok s) ∧
    ((∀ s ∈ sections, ¬(s.len ≠ 0 ∧ s.name ∈ names)) →
      getItemLogical names sections = .error "section not found") := by
  refine ⟨?_, ?_, ?_⟩
  · intro s hok
    unfold getItemLogical getSectionNameFrom at hok
    cases hfind : sections.find? (fun t => decide (t.len ≠ 0) && decide (t.name ∈ names)) with
    | none => rw [hfind] at hok; exact absurd hok (by simp)
    | some s₀ =>
      rw [hfind] at hok
      have hdict := sdictGet_of_nodup sections s₀ hnodup (List.mem_of_find?_eq_some hfind)
      simp only [hdict] at hok
      have hss : s₀ = s := by
        have := hok
        simp at this
        exact this
      subst hss
      have hp := List.find?_some hfind
      simp only [Bool.and_eq_true, decide_eq_true_eq] at hp
      obtain ⟨l₁, l₂, hdec, _, hfst⟩ :=
        find?_some_decomp _ sections s₀ hfind
      refine ⟨List.mem_of_find?_eq_some hfind, hp.1, hp.2, l₁, l₂, hdec, ?_⟩
      intro t ht
      have := hfst t ht
      simp only [Bool.and_eq_false_iff, decide_eq_false_iff_not] at this
      rcases this with h | h
      · intro hc; exact absurd (by simpa using h) (by simp [hc.1])
      · intro hc; exact absurd hc.2 (by simpa using h)
  · intro l₁ l₂ s hdec hlen hname hfst
    have hfind : sections.find? (fun t => decide (t.len ≠ 0) && decide (t.name ∈ names)) =
        some s := by
      refine find?_eq_some_first _ sections s ⟨l₁, l₂, hdec, by simp [hlen, hname], ?_⟩
      intro t ht
      have := hfst t ht
      simp only [Bool.and_eq_false_iff, decide_eq_false_iff_not]
      by_cases hl : t.len = 0
      · left; simpa using hl
      · right; intro hn; exact this ⟨hl, hn⟩
    have hmem : s ∈ sections := List.mem_of_find?_eq_some hfind
    unfold getItemLogical getSectionNameFrom
    rw [hfind]
    simp only [sdictGet_of_nodup sections s hnodup hmem]
  · intro hall
    have hfind : sections.find? (fun t => decide (t.len ≠ 0) && decide (t.name ∈ names)) =
        none := by
      rw [List.find?_eq_none]
      intro t ht
      have := hall t ht
      simp only [Bool.and_eq_true, decide_eq_true_eq, not_and]
      intro h1 h2
      exact this ⟨h1, h2⟩
    unfold getItemLogical getSectionNameFrom
    rw [hfind]

/-- C5 amended: for every PAK whose section names are pairwise distinct,
resolving the logical name "uboot" (resp. "kernel") yields the first section
in listing order whose name is in {"uboot", "uboot1", "BOOT"} (resp.
{"kernel", "KERNEL"}) and whose length is nonzero, and when no such section
exists the firmware object fails with a missing-section error; under distinct
names a zero-length section is never returned.  (With duplicate names the
name→section map keeps the last section for the stored name, which is how the
original claim fails.) -/
theorem C5_logical_lookup (sections : List PakSection)
    (hnodup : (sections.map PakSection.name).Nodup) :
    ((∀ s, getItemLogical UBOOT_SECTIONS sections = .ok s →
      s ∈ sections ∧ s.len ≠ 0 ∧ s.name ∈ UBOOT_SECTIONS ∧
      ∃ l₁ l₂, sections = l₁ ++ s :: l₂ ∧
        ∀ t ∈ l₁, ¬(t.len ≠ 0 ∧ t.name ∈ UBOOT_SECTIONS)) ∧
    (∀ l₁ l₂ s, sections = l₁ ++ s :: l₂ → s.len ≠ 0 → s.name ∈ UBOOT_SECTIONS →
      (∀ t ∈ l₁, ¬(t.len ≠ 0 ∧ t.name ∈ UBOOT_SECTIONS)) →
      getItemLogical UBOOT_SECTIONS sections = .ok s) ∧
    ((∀ s ∈ sections, ¬(s.len ≠ 0 ∧ s.name ∈ UBOOT_SECTIONS)) →
      getItemLogical UBOOT_SECTIONS sections = .error "section not found")) ∧
    ((∀ s, getItemLogical KERNEL_SECTIONS sections = .ok s →
      s ∈ sections ∧ s.len ≠ 0 ∧ s.name ∈ KERNEL_SECTIONS ∧
      ∃ l₁ l₂, sections = l₁ ++ s :: l₂ ∧
        ∀ t ∈ l₁, ¬(t.len ≠ 0 ∧ t.name ∈ KERNEL_SECTIONS)) ∧
    (∀ l₁ l₂ s, sections = l₁ ++ s :: l₂ → s.len ≠ 0 → s.name ∈ KERNEL_SECTIONS →
      (∀ t ∈ l₁, ¬(t.len ≠ 0 ∧ t.name ∈ KERNEL_SECTIONS)) →
      getItemLogical KERNEL_SECTIONS sections = .ok s) ∧
    ((∀ s ∈ sections, ¬(s.len ≠ 0 ∧ s.name ∈ KERNEL_SECTIONS)) →
      getItemLogical KERNEL_SECTIONS sections = .error "section not found")) :=
  ⟨getItemLogical_spec UBOOT_SECTIONS sections hnodup,
   getItemLogical_spec KERNEL_SECTIONS sections hnodup⟩

theorem C5_logical_lookup_witness :
    getItemLogical UBOOT_SECTIONS
      [⟨"junk", 0, 3⟩, ⟨"uboot", 0, 0⟩, ⟨"uboot1", 3, 4⟩, ⟨"kernel", 7, 5⟩] =
      .ok ⟨"uboot1", 3, 4⟩ :=
  (C5_logical_lookup
    [⟨"junk", 0, 3⟩, ⟨"uboot", 0, 0⟩, ⟨"uboot1", 3, 4⟩, ⟨"kernel", 7, 5⟩]
    (by decide)).1.2.1
    [⟨"junk", 0, 3⟩, ⟨"uboot", 0, 0⟩] [⟨"kernel", 7, 5⟩] ⟨"uboot1", 3, 4⟩
    rfl (by decide) (by decide) (by decide)

/-- C4 as stated is false: the upper cursor bound `cursor ≤ length` is not an
invariant — `seek` accepts any target at or past the window start (standard
file semantics), so seeking to 10 in a window of length 4 succeeds and
leaves the cursor at 10. -/
theorem C4_counterexample :
    (SectionFile.make [1, 2, 3, 4, 5, 6, 7, 8] ⟨"fs", 2, 4⟩).length = 4 ∧
    ((SectionFile.make [1, 2, 3, 4, 5, 6, 7, 8] ⟨"fs", 2, 4⟩).runOps
      [.opSeek 10 0]).tell = 10 := by
  decide

theorem seek_ok_shape (f : SectionFile) (off : Int) (whence t : Nat) (f' : SectionFile)
    (h : f.seek off whence = .ok (t, f')) :
    f'.fileData = f.fileData ∧ f'.start = f.start ∧ f'.sEnd = f.sEnd ∧
    f.start ≤ f'.position := by
  unfold SectionFile.seek at h
  by_cases hw : whence = 0 ∨ whence = 1 ∨ whence = 2
  · rw [if_pos hw] at h
    by_cases hm : f.seekTarget off whence < (f.start : Int)
    · rw [if_pos hm] at h
      exact absurd h (by simp)
    · rw [if_neg hm] at h
      simp only [Except.ok.injEq, Prod.mk.injEq] at h
      obtain ⟨-, hf'⟩ := h
      subst hf'
      refine ⟨rfl, rfl, rfl, ?_⟩
      simp only [not_lt] at hm
      simp only
      omega
  · rw [if_neg hw] at h
    exact absurd h (by simp)

theorem applyOp_preserves (f : SectionFile) (op : FileOp) (hwf : f.start ≤ f.position) :
    (f.applyOp op).start = f.start ∧ (f.applyOp op).sEnd = f.sEnd ∧
    f.start ≤ (f.applyOp op).position := by
  cases op with
  | opPeek _ => exact ⟨rfl, rfl, hwf⟩
  | opTell => exact ⟨rfl, rfl, hwf⟩
  | opRead size =>
    simp only [SectionFile.applyOp, SectionFile.read]
    split
    · exact ⟨rfl, rfl, hwf⟩
    · exact ⟨rfl, rfl, by simp; omega⟩
  | opSeek off whence =>
    simp only [SectionFile.applyOp]
    cases hs : f.seek off whence with
    | error e => exact ⟨rfl, rfl, hwf⟩
    | ok r =>
      obtain ⟨t, f'⟩ := r
      have h := seek_ok_shape f off whence t f' hs
      exact ⟨h.2.1, h.2.2.1, h.2.2.2⟩

theorem runOps_preserves (f : SectionFile) (ops : List FileOp)
    (hwf : f.start ≤ f.position) :
    (f.runOps ops).start = f.start ∧ (f.runOps ops).sEnd = f.sEnd ∧
    f.start ≤ (f.runOps ops).position := by
  induction ops generalizing f with
  | nil => exact ⟨rfl, rfl, hwf⟩
  | cons op ops ih =>
    have h1 := applyOp_preserves f op hwf
    have h2 := ih (f.applyOp op) (by rw [h1.1]; exact h1.2.2)
    refine ⟨h2.1.trans h1.1, h2.2.1.trans h1.2.1, ?_⟩
    have h3 := h2.2.2
    rw [h1.1] at h3
    exact h3

/-- C4 amended: for every section window and every sequence of read, peek,
seek and tell operations, the cursor never moves before the window start
(`0 ≤ cursor`; the upper bound `cursor ≤ length` does *not* hold, since
seeking past the window end is permitted), any read issued with the cursor
at or past the window length returns empty bytes, reads never return bytes
beyond the window end, any seek that would place the cursor before the
window start fails with an error, and `peek(n)` returns up to `n` bytes
without changing the cursor (indeed the same bytes a read would return). -/
theorem C4_window_invariants (f : SectionFile) (ops : List FileOp) (n off : Int)
    (hwf : f.start ≤ f.position) :
    ((f.runOps ops).start = f.start ∧ (f.runOps ops).sEnd = f.sEnd ∧
      f.start ≤ (f.runOps ops).position) ∧
    (f.sEnd ≤ f.position → (f.read n).1 = []) ∧
    (f.read n).1 <+: ((f.fileData.take f.sEnd).drop f.position) ∧
    ((f.start : Int) + off < (f.start : Int) →
      f.seek off 0 = .error "new position is negative") ∧
    ((f.position : Int) + off < (f.start : Int) →
      f.seek off 1 = .error "new position is negative") ∧
    ((f.sEnd : Int) + off < (f.start : Int) →
      f.seek off 2 = .error "new position is negative") ∧
    (0 ≤ n → (f.peek n).length ≤ n.toNat) ∧
    f.peek n = (f.read n).1 ∧
    f.applyOp (.opPeek n) = f ∧ f.applyOp .opTell = f := by
  refine ⟨runOps_preserves f ops hwf, ?_, ?_, ?_, ?_, ?_, ?_, ?_, rfl, rfl⟩
  · intro hend
    simp [SectionFile.read, hend]
  · simp only [SectionFile.read]
    split
    · simp
    · rename_i hcond
      simp only
      have hpos : f.position < f.sEnd := by
        rcases not_or.mp hcond with ⟨h1, _⟩
        omega
      set maxRead := f.sEnd - f.position with hmr
      set k : Nat := if n < 0 ∨ (maxRead : Int) < n then maxRead else n.toNat with hk
      have hkle : k ≤ maxRead := by
        rw [hk]
        split
        · exact Nat.le_refl _
        · rename_i hno
          rcases not_or.mp hno with ⟨hn0, hnm⟩
          omega
      have hdt : (f.fileData.take f.sEnd).drop f.position =
          (f.fileData.drop f.position).take (f.sEnd - f.position) := by
        rw [List.drop_take]
      rw [hdt, ← hmr]
      have : (f.fileData.drop f.position).take k =
          ((f.fileData.drop f.position).take maxRead).take k := by
        rw [List.take_take, Nat.min_eq_left hkle]
      rw [this]
      exact List.take_prefix _ _
  · intro h
    simp only [SectionFile.seek, SectionFile.seekTarget]
    norm_num [h]
  · intro h
    simp only [SectionFile.seek, SectionFile.seekTarget]
    norm_num [h]
  · intro h
    simp only [SectionFile.seek, SectionFile.seekTarget]
    norm_num [h]
  · intro hn
    simp only [SectionFile.peek]
    split
    · simp
    · rename_i hcond
      split
      · rename_i hbig
        rcases hbig with hneg | hm
        · omega
        · exact le_trans (List.length_take_le _ _) (by omega)
      · exact List.length_take_le _ _
  · simp only [SectionFile.peek, SectionFile.read]
    split
    · rfl
    · rfl

theorem C4_window_invariants_witness :
    (((SectionFile.make [1, 2, 3, 4, 5, 6] ⟨"fs", 1, 4⟩).runOps
        [.opRead 2, .opSeek 1 1]).start = 1 ∧
      ((SectionFile.make [1, 2, 3, 4, 5, 6] ⟨"fs", 1, 4⟩).runOps
        [.opRead 2, .opSeek 1 1]).sEnd = 5 ∧
      1 ≤ ((SectionFile.make [1, 2, 3, 4, 5, 6] ⟨"fs", 1, 4⟩).runOps
        [.opRead 2, .opSeek 1 1]).position) ∧
    ((SectionFile.make [1, 2, 3, 4, 5, 6] ⟨"fs", 1, 4⟩).read 3).1 <+: [2, 3, 4, 5] :=
  have h := C4_window_invariants (SectionFile.make [1, 2, 3, 4, 5, 6] ⟨"fs", 1, 4⟩)
    [.opRead 2, .opSeek 1 1] 3 0 (by decide)
  ⟨h.1, h.2.2.1⟩

theorem isPrefixOf_length_le (l t : List UInt8) (h : l.isPrefixOf t = true) :
    l.length ≤ t.length := by
  induction l generalizing t with
  | nil => simp
  | cons a l ih =>
    cases t with
    | nil => simp [List.isPrefixOf] at h
    | cons b t =>
      simp only [List.isPrefixOf, Bool.and_eq_true] at h
      have := ih t h.2
      simp only [List.length_cons]
      omega

theorem kernelCompAt_some_lt (d : List UInt8) (p : Nat) (g : CompGroup)
    (h : kernelCompAt d p = some g) : p < d.length := by
  unfold kernelCompAt at h
  split at h
  · rename_i hlz4
    have := isPrefixOf_length_le _ _ hlz4
    simp only [LZ4_MAGIC, List.length_cons, List.length_nil, List.length_drop] at this
    omega
  · split at h
    · rename_i hxz
      simp only [Bool.and_eq_true] at hxz
      have := isPrefixOf_length_le _ _ hxz.1.1
      simp only [XZ_MAGIC, List.length_cons, List.length_nil, List.length_drop] at this
      omega
    · split at h
      · rename_i hlzma
        simp only [lzmaMagicAt, Bool.and_eq_true, decide_eq_true_eq] at hlzma
        have h5 := hlzma.1.1
        have : ((d.drop p).take 5).length = min 5 (d.length - p) := by
          simp [List.length_take, List.length_drop]
        omega
      · split at h
        · rename_i hgz
          have := isPrefixOf_length_le _ _ hgz
          simp only [GZIP_MAGIC, List.length_cons, List.length_nil,
            List.length_drop] at this
          omega
        · exact absurd h (by simp)

theorem systemHalted_at_le (d : List UInt8) (i : Nat)
    (h : systemHalted.isPrefixOf (d.drop i) = true) : i ≤ d.length := by
  have := isPrefixOf_length_le _ _ h
  simp only [systemHalted, List.length_cons, List.length_nil, List.length_drop] at this
  omega

/-- C2: for every kernel section, decompression proceeds as follows: if an
LZMA or XZ magic matches immediately after the 64-byte legacy image header,
the rest of the section is decompressed as a single LZMA/XZ stream;
otherwise, if the literal bytes `" -- System halted"` are absent from the
section the operation fails with the system-halted-not-found error;
otherwise the first occurrence, searching forward from that literal, of one
of the four compression magics (LZ4-legacy, XZ, LZMA, gzip) selects the
decompressor (branches tried in that alternation order at each position),
and if none matches the operation fails with the no-known-compression
error. -/
theorem C2_kernel_dispatch (data : List UInt8) :
    (lzmaOrXzAt data uimageHdrSize = true →
      _decompress_kernel data = .ok (.singleStream (data.drop uimageHdrSize))) ∧
    (lzmaOrXzAt data uimageHdrSize = false →
      (∀ i, i ≤ data.length → systemHalted.isPrefixOf (data.drop i) = false) →
      _decompress_kernel data = .error "'System halted' string not found") ∧
    (∀ halt, lzmaOrXzAt data uimageHdrSize = false →
      systemHalted.isPrefixOf (data.drop halt) = true →
      (∀ j, j < halt → systemHalted.isPrefixOf (data.drop j) = false) →
      (∀ i, halt ≤ i → i ≤ data.length → kernelCompAt data i = none) →
      _decompress_kernel data = .error "No known compression found in kernel") ∧
    (∀ halt p g, lzmaOrXzAt data uimageHdrSize = false →
      systemHalted.isPrefixOf (data.drop halt) = true →
      (∀ j, j < halt → systemHalted.isPrefixOf (data.drop j) = false) →
      halt ≤ p → kernelCompAt data p = some g →
      (∀ j, halt ≤ j → j < p → kernelCompAt data j = none) →
      _decompress_kernel data = .ok (match g with
        | .lz4 => .lz4Frame (data.drop p)
        | .xz => .xzLzmaStream (data.drop p)
        | .lzma => .xzLzmaStream (data.drop p)
        | .gz => .gzipStream (data.drop p))) := by
  refine ⟨?_, ?_, ?_, ?_⟩
  · intro h1
    simp [_decompress_kernel, h1]
  · intro h1 h2
    have hscan : scanFirst
        (fun i => if systemHalted.isPrefixOf (data.drop i) then some () else none)
        0 (data.length + 1) = none := by
      apply scanFirst_none
      intro j _ hj2
      simp [h2 j (by omega)]
    have hfind : findSystemHalted data = none := by
      unfold findSystemHalted
      rw [hscan]
      rfl
    simp [_decompress_kernel, h1, hfind]
  · intro halt h1 hat hmin hnone
    have hle : halt ≤ data.length := systemHalted_at_le data halt hat
    have hscan : scanFirst
        (fun i => if systemHalted.isPrefixOf (data.drop i) then some () else none)
        0 (data.length + 1) = some (halt, ()) := by
      apply scanFirst_some
      · exact Nat.zero_le _
      · omega
      · simp [hat]
      · intro j _ hj
        simp [hmin j hj]
    have hfind : findSystemHalted data = some halt := by
      unfold findSystemHalted
      rw [hscan]
      rfl
    have hsearch : kernelCompSearch data halt = none := by
      unfold kernelCompSearch
      apply scanFirst_none
      intro j hj1 hj2
      exact hnone j hj1 (by omega)
    simp [_decompress_kernel, h1, hfind, hsearch]
  · intro halt p g h1 hat hmin hhp hpat hpmin
    have hle : halt ≤ data.length := systemHalted_at_le data halt hat
    have hplt : p < data.length := kernelCompAt_some_lt data p g hpat
    have hscan : scanFirst
        (fun i => if systemHalted.isPrefixOf (data.drop i) then some () else none)
        0 (data.length + 1) = some (halt, ()) := by
      apply scanFirst_some
      · exact Nat.zero_le _
      · omega
      · simp [hat]
      · intro j _ hj
        simp [hmin j hj]
    have hfind : findSystemHalted data = some halt := by
      unfold findSystemHalted
      rw [hscan]
      rfl
    have hsearch : kernelCompSearch data halt = some (p, g) := by
      unfold kernelCompSearch
      exact scanFirst_some _ halt _ p g hhp (by omega) hpat hpmin
    cases g with
    | lz4 => simp [_decompress_kernel, h1, hfind, hsearch]
    | xz => simp [_decompress_kernel, h1, hfind, hsearch]
    | lzma => simp [_decompress_kernel, h1, hfind, hsearch]
    | gz => simp [_decompress_kernel, h1, hfind, hsearch]

theorem C2_kernel_dispatch_witness :
    _decompress_kernel (List.replicate 70 0) =
      .error "'System halted' string not found" :=
  (C2_kernel_dispatch (List.replicate 70 0)).2.1 (by decide) (by decide)

theorem fdtHeaderAt_le (d : List UInt8) (i : Nat) (h : fdtHeaderAt d i = true) :
    i ≤ d.length := by
  unfold fdtHeaderAt at h
  simp only [Bool.and_eq_true, decide_eq_true_eq] at h
  omega

theorem fdtSearch_eq_some (d : List UInt8) (i : Nat) (hat : fdtHeaderAt d i = true)
    (hmin : ∀ j, j < i → fdtHeaderAt d j = false) : fdtSearch d = some i := by
  have hscan : scanFirst (fun j => if fdtHeaderAt d j then some () else none)
      0 (d.length + 1) = some (i, ()) := by
    apply scanFirst_some
    · exact Nat.zero_le _
    · have := fdtHeaderAt_le d i hat
      omega
    · simp [hat]
    · intro j _ hj
      simp [hmin j hj]
  unfold fdtSearch
  rw [hscan]
  rfl

theorem fdtSearch_eq_none (d : List UInt8) (h : ∀ j, j ≤ d.length → fdtHeaderAt d j = false) :
    fdtSearch d = none := by
  have hscan : scanFirst (fun j => if fdtHeaderAt d j then some () else none)
      0 (d.length + 1) = none := by
    apply scanFirst_none
    intro j _ hj2
    simp [h j (by omega)]
  unfold fdtSearch
  rw [hscan]
  rfl

/-- Two back-to-back FDT header matches (each 40 bytes). -/
def c8data : List UInt8 :=
  ([0xD0, 0x0D, 0xFE, 0xED] ++ List.replicate 16 0 ++ [0, 0, 0, 0x11] ++
    [0, 0, 0, 0x10] ++ List.replicate 12 0) ++
  ([0xD0, 0x0D, 0xFE, 0xED] ++ List.replicate 16 0 ++ [0, 0, 0, 0x11] ++
    [0, 0, 0, 0x10] ++ List.replicate 12 0)

/-- A model-property assignment for the FDTs in `c8data` that the external
`pyfdt` parse is free to produce: the FDT at offset 0 has an empty `model`,
the one at offset 40 a non-empty `model`. -/
def c8model : List UInt8 → Nat → List UInt8 :=
  fun _ i => if i = 0 then [] else [0x78]

/-- C8 as stated is false: `_get_fdt` performs no `model`-property check at
all — it returns the *first* FDT header match in the searched data.  With an
fdt section holding two headers, the first with an empty model and the
second with a non-empty one, the code still returns the first, so a first
FDT with an empty model is not skipped in favour of a later one. -/
theorem C8_counterexample :
    get_fdt_loc true c8data [] [] = some (.fdtSection, 0) ∧
    fdtHeaderAt c8data 40 = true ∧
    c8model c8data 0 = [] ∧ c8model c8data 40 ≠ [] := by
  decide

/-- C8 amended: for every firmware, FDT discovery searches first inside the
fdt section when one is present (and returns nothing when no header is found
there, without falling through), else inside the raw kernel section bytes,
else inside the decompressed kernel, and the FDT returned is the first FDT
header match found in the searched data, regardless of its `model`
property. -/
theorem C8_fdt_discovery (hasFdt : Bool) (fdtData ks kd : List UInt8) :
    (∀ i, hasFdt = true → fdtHeaderAt fdtData i = true →
      (∀ j, j < i → fdtHeaderAt fdtData j = false) →
      get_fdt_loc hasFdt fdtData ks kd = some (.fdtSection, i)) ∧
    (hasFdt = true → (∀ j, j ≤ fdtData.length → fdtHeaderAt fdtData j = false) →
      get_fdt_loc hasFdt fdtData ks kd = none) ∧
    (∀ i, hasFdt = false → fdtHeaderAt ks i = true →
      (∀ j, j < i → fdtHeaderAt ks j = false) →
      get_fdt_loc hasFdt fdtData ks kd = some (.kernelSection, i)) ∧
    (∀ i, hasFdt = false → (∀ j, j ≤ ks.length → fdtHeaderAt ks j = false) →
      fdtHeaderAt kd i = true → (∀ j, j < i → fdtHeaderAt kd j = false) →
      get_fdt_loc hasFdt fdtData ks kd = some (.kernelDecompressed, i)) ∧
    (hasFdt = false → (∀ j, j ≤ ks.length → fdtHeaderAt ks j = false) →
      (∀ j, j ≤ kd.length → fdtHeaderAt kd j = false) →
      get_fdt_loc hasFdt fdtData ks kd = none) := by
  refine ⟨?_, ?_, ?_, ?_, ?_⟩
  · intro i hh hat hmin
    subst hh
    simp [get_fdt_loc, fdtSearch_eq_some fdtData i hat hmin]
  · intro hh hnone
    subst hh
    simp [get_fdt_loc, fdtSearch_eq_none fdtData hnone]
  · intro i hh hat hmin
    subst hh
    simp [get_fdt_loc, fdtSearch_eq_some ks i hat hmin]
  · intro i hh hknone hat hmin
    subst hh
    simp [get_fdt_loc, fdtSearch_eq_none ks hknone, fdtSearch_eq_some kd i hat hmin]
  · intro hh hknone hdnone
    subst hh
    simp [get_fdt_loc, fdtSearch_eq_none ks hknone, fdtSearch_eq_none kd hdnone]

theorem C8_fdt_discovery_witness :
    get_fdt_loc false [] c8data [] = some (.kernelSection, 0) :=
  (C8_fdt_discovery false [] c8data []).2.2.1 0 rfl (by decide) (by decide)

theorem lz4LegacyLoop_run (B : List UInt8 → List UInt8) (cblocks : List (List UInt8)) :
    ∀ (res rest : List UInt8),
    (∀ c ∈ cblocks, c.length < 2 ^ 32) →
    res.length + ((cblocks.map B).flatten).length < 2 ^ 32 →
    (∀ n, (hn : n < cblocks.length) →
      (cblocks.get ⟨n, hn⟩).length ≠
        res.length + (((cblocks.take n).map B).flatten).length) →
    lz4LegacyLoop B
      (lz4Records cblocks ++
        u32leBytes (res.length + ((cblocks.map B).flatten).length) ++ rest)
      res = .ok (res ++ (cblocks.map B).flatten) := by
  induction cblocks with
  | nil =>
    intro res rest _ hfinal _
    rw [lz4LegacyLoop]
    simp only [lz4Records, List.map_nil, List.flatten_nil, List.length_nil, Nat.add_zero,
      List.nil_append, List.append_nil]
    rw [List.take_left' (u32leBytes_length _),
      u32le_u32leBytes _ (by simpa using hfinal)]
    simp
  | cons c cs ih =>
    intro res rest hlen hfinal hne
    have hs : lz4Records (c :: cs) ++
        u32leBytes (res.length + (((c :: cs).map B).flatten).length) ++ rest =
        u32leBytes c.length ++ (c ++ (lz4Records cs ++
          (u32leBytes (res.length + (((c :: cs).map B).flatten).length) ++ rest))) := by
      simp [lz4Records, List.append_assoc]
    rw [lz4LegacyLoop, hs]
    rw [List.take_left' (u32leBytes_length _), List.drop_left' (u32leBytes_length _),
      u32le_u32leBytes _ (hlen c (List.mem_cons_self c cs))]
    have hne0 : ¬(c.length = res.length) := by
      have h0 := hne 0 (by simp)
      simpa using h0
    rw [if_neg hne0, dif_neg (by simp [u32leBytes])]
    rw [List.take_left, List.drop_left]
    have hT : res.length + (((c :: cs).map B).flatten).length =
        (res ++ B c).length + ((cs.map B).flatten).length := by
      simp [List.length_append]
      omega
    rw [hT, ← List.append_assoc (lz4Records cs)]
    have hgoal := ih (res ++ B c) rest
      (fun d hd => hlen d (List.mem_cons_of_mem c hd))
      (by simp only [List.length_append] at hT ⊢
          simp only [List.map_cons, List.flatten_cons, List.length_append] at hfinal
          omega)
      (by
        intro n hn
        have h1 := hne (n + 1) (by simpa using Nat.succ_lt_succ hn)
        simp only [List.get_eq_getElem, List.getElem_cons_succ, List.take_succ_cons,
          List.map_cons, List.flatten_cons, List.length_append, List.length_flatten,
          List.map_map, List.map_take] at h1 ⊢
        omega)
    rw [hgoal]
    simp [List.append_assoc]

/-- C7: for every input stream, LZ4 legacy-frame decompression fails with an
error when the first four bytes are not the magic `02 21 4C 18`; and on a
well-formed frame — the magic, then repeating `{u32 block_size, block_size
bytes}` records, then a u32 field equal to the total decompressed length
(no earlier size field colliding with the running decompressed length) —
it returns the concatenation of the per-block decompressions, stopping
exactly at that terminator field.  `B` is the external per-block
decompressor. -/
theorem C7_lz4_legacy_frame (B : List UInt8 → List UInt8)
    (cblocks : List (List UInt8)) (s rest : List UInt8)
    (hmagic : s.take 4 ≠ LZ4_MAGIC)
    (hlen : ∀ c ∈ cblocks, c.length < 2 ^ 32)
    (hfinal : ((cblocks.map B).flatten).length < 2 ^ 32)
    (hne : ∀ n, (hn : n < cblocks.length) →
      (cblocks.get ⟨n, hn⟩).length ≠ (((cblocks.take n).map B).flatten).length) :
    lz4_legacy_decompress B s = .error "LZ4 legacy frame magic not found" ∧
    lz4_legacy_decompress B
      (LZ4_MAGIC ++ (lz4Records cblocks ++
        u32leBytes ((cblocks.map B).flatten).length ++ rest)) =
      .ok ((cblocks.map B).flatten) := by
  constructor
  · rw [lz4_legacy_decompress, if_neg hmagic]
  · have htake4 : (LZ4_MAGIC ++ (lz4Records cblocks ++
        u32leBytes ((cblocks.map B).flatten).length ++ rest)).take 4 = LZ4_MAGIC :=
      List.take_left' (by simp [LZ4_MAGIC])
    rw [lz4_legacy_decompress, if_pos htake4, List.drop_left' (by simp [LZ4_MAGIC])]
    have h := lz4LegacyLoop_run B cblocks [] rest hlen (by simpa using hfinal)
      (by simpa using hne)
    simpa using h

theorem C7_lz4_legacy_frame_witness :
    lz4_legacy_decompress (fun c => c ++ c) [0, 0, 0, 0] =
      .error "LZ4 legacy frame magic not found" ∧
    lz4_legacy_decompress (fun c => c ++ c)
      (LZ4_MAGIC ++ (lz4Records [[7, 8]] ++ u32leBytes 4 ++ [9])) =
      .ok [7, 8, 7, 8] := by
  have h := C7_lz4_legacy_frame (fun c => c ++ c) [[7, 8]] [0, 0, 0, 0] [9]
    (by decide) (by decide) (by decide) (by decide)
  exact ⟨h.1, by simpa using h.2⟩

theorem isPrefixOf_append_right (l core pad : List UInt8)
    (h : l.isPrefixOf core = true) : l.isPrefixOf (core ++ pad) = true := by
  induction l generalizing core with
  | nil => simp [List.isPrefixOf]
  | cons a l ih =>
    cases core with
    | nil => simp [List.isPrefixOf] at h
    | cons b core =>
      simp only [List.isPrefixOf, Bool.and_eq_true] at h
      simp only [List.cons_append, List.isPrefixOf, Bool.and_eq_true]
      exact ⟨h.1, ih core h.2⟩

theorem parseBclHeader_append (core pad : List UInt8) (h : 16 ≤ core.length) :
    parseBclHeader (core ++ pad) = parseBclHeader core := by
  unfold parseBclHeader
  have h4 : (core ++ pad).drop 4 = core.drop 4 ++ pad :=
    List.drop_append_of_le_length (by omega)
  have h8 : (core ++ pad).drop 8 = core.drop 8 ++ pad :=
    List.drop_append_of_le_length (by omega)
  have h12 : (core ++ pad).drop 12 = core.drop 12 ++ pad :=
    List.drop_append_of_le_length (by omega)
  rw [h4, h8, h12,
    List.take_append_of_le_length (by simp; omega),
    List.take_append_of_le_length (by simp; omega),
    List.take_append_of_le_length (by simp; omega)]

/-- C6: for every U-Boot section whose bytes are a BCL header plus exactly
`hdr.size` payload bytes followed by window padding (the observed 1–3
trailing `0xFF` bytes), `_decompress_uboot` hands the external BCL
decompressor exactly the `hdr.size` payload bytes after the 16-byte header —
the padding is ignored — and, the decompressor producing `outsize` bytes as
the format requires (hypothesis `hD`), the decompressed output has length
equal to the header's `outsize` field. -/
theorem C6_bcl_payload (D : Nat → Nat → List UInt8 → List UInt8)
    (L : List UInt8 → List UInt8) (core pad : List UInt8)
    (hD : ∀ a o d, (D a o d).length = o)
    (hmagic : BCL_MAGIC_BYTES.isPrefixOf core = true)
    (hcore : core.length = bclHeaderSize + (parseBclHeader core).size) :
    _decompress_uboot D L (core ++ pad) =
      .ok (D (parseBclHeader core).algo (parseBclHeader core).outsize
        (core.drop bclHeaderSize)) ∧
    ∃ out, _decompress_uboot D L (core ++ pad) = .ok out ∧
      out.length = (parseBclHeader core).outsize := by
  have h16 : 16 ≤ core.length := by
    rw [hcore]
    simp [bclHeaderSize]
  have hparse := parseBclHeader_append core pad h16
  have hmain : _decompress_uboot D L (core ++ pad) =
      .ok (D (parseBclHeader core).algo (parseBclHeader core).outsize
        (core.drop bclHeaderSize)) := by
    unfold _decompress_uboot
    rw [if_pos (isPrefixOf_append_right _ core pad hmagic)]
    rw [hparse]
    have hdrop : (core ++ pad).drop bclHeaderSize = core.drop bclHeaderSize ++ pad :=
      List.drop_append_of_le_length (by simpa [bclHeaderSize] using h16)
    rw [hdrop]
    show Except.ok (D (parseBclHeader core).algo (parseBclHeader core).outsize
        (List.take (parseBclHeader core).size (List.drop bclHeaderSize core ++ pad))) =
      Except.ok (D (parseBclHeader core).algo (parseBclHeader core).outsize
        (List.drop bclHeaderSize core))
    rw [List.take_left' ?hl]
    case hl =>
      simp only [List.length_drop]
      simp only [bclHeaderSize] at hcore ⊢
      omega
  exact ⟨hmain, _, hmain, hD _ _ _⟩

/-- Concrete BCL section body: magic, algo 1, compressed size 2, outsize 3,
two payload bytes. -/
def c6core : List UInt8 :=
  BCL_MAGIC_BYTES ++ [0, 0, 0, 1] ++ [0, 0, 0, 2] ++ [0, 0, 0, 3] ++ [0xAB, 0xCD]

theorem C6_bcl_payload_witness :
    _decompress_uboot (fun _ o _ => List.replicate o 0) (fun x => x)
      (c6core ++ [0xFF, 0xFF]) = .ok [0, 0, 0] := by
  have h := C6_bcl_payload (fun _ o _ => List.replicate o 0) (fun x => x)
    c6core [0xFF, 0xFF] (fun a o d => by simp) (by decide) (by decide)
  rw [h.1]
  rfl

/-- C10: for the root directory of a UBIFS image (the directory whose parent
is absent), `select("..")` returns the root directory itself rather than
failing or returning no file; for every non-root directory, `select("..")`
returns its parent; and a `select` of an absolute path issued from any
(in particular a non-root) directory resolves starting at the root — the
result does not depend on the directory it was issued from. -/
theorem C10_ubifs_select (img : FsNode) (addr : List String) (cs : List String) :
    dirSelect img [] false [".."] = some [] ∧
    (addr ≠ [] → dirSelect img addr false [".."] = some addr.dropLast) ∧
    dirSelect img addr true cs = dirSelect img [] true cs := by
  refine ⟨by simp [dirSelect], fun _ => by simp [dirSelect], ?_⟩
  conv_lhs => rw [dirSelect]
  conv_rhs => rw [dirSelect]
  simp

theorem C10_ubifs_select_witness :
    dirSelect (FsNode.dir [("a", FsNode.dir [])]) ["a"] false [".."] = some [] := by
  have h := (C10_ubifs_select (FsNode.dir [("a", FsNode.dir [])]) ["a"] []).2.1
    (by simp)
  simpa using h

end ReolinkFW
